import Mathlib

/-!
Verification development for the car-catalog service:
the similarity-recommendation scorer (src/cars/services/car_recommendations.py),
the free-text engine/capacity parsers (src/cars/utils/data_cleaners.py and
src/cars/data_cleaners.py), the engine-row creation helpers
(src/cars/utils/car_helpers.py) and the price formatter
(src/cars/utils/price_formatter.py).

Conventions of the embedding:
* Python floats are modelled as exact rationals (`ℚ`); Python ints as `ℤ`/`ℕ`.
* A nullable column is an `Option`; Python truthiness on a numeric value
  (`if x:`) is modelled as "present and nonzero".
* Django `Case/When` annotations are functions from the candidate row to `ℚ`.
* `order_by("-similarity_score")` is modelled as a sort by nonincreasing
  score; the relative order of candidates with equal scores is not specified
  by the source (backend-dependent), so any sort realises it.
-/

/-- A `Performance` row (models.py): all three columns are NOT NULL. -/
structure Performance where
  top_speed : ℤ
  acceleration_min : ℚ
  acceleration_max : ℚ
deriving DecidableEq

/-- A `Car` row as consumed by the scorer: `performance` is a nullable
one-to-one, `price_min`/`price_max` are guarded by `__isnull` checks in the
annotations, the brand foreign key and the reverse `tag_set` are flattened
to an id and an id list (one entry per distinct tag row of the car). -/
structure Car where
  id : ℕ
  brand : ℕ
  price_min : Option ℤ
  price_max : Option ℤ
  performance : Option Performance
  tags : List ℕ
deriving DecidableEq

/-- `calculate_average_price` (car_recommendations.py:11): returns
`(price_min + price_max) / 2` when `price_min and price_max` is truthy
(both present and nonzero), else `None`. -/
def calculate_average_price (car : Car) : Option ℚ :=
  match car.price_min, car.price_max with
  | some pmin, some pmax =>
    if pmin ≠ 0 ∧ pmax ≠ 0 then some (((pmin : ℚ) + (pmax : ℚ)) / 2) else none
  | _, _ => none

/-- `get_price_similarity_annotation` (car_recommendations.py:26), as the
function the returned `Case` computes on each candidate row.
`if not car_avg_price` is truthiness: `None` and `0` both yield the
constant-0 annotation. -/
def price_similarity (reference_car : Car) : Car → ℚ :=
  match calculate_average_price reference_car with
  | none => fun _ => 0
  | some car_avg_price =>
    if car_avg_price = 0 then fun _ => 0
    else fun c =>
      match c.price_min, c.price_max with
      | some pmin, some pmax =>
        1 - |((pmin : ℚ) + (pmax : ℚ)) / 2 - car_avg_price| / car_avg_price
      | _, _ => 0

/-- `get_performance_similarity_annotation` (car_recommendations.py:53):
each sub-term contributes `0` when the reference metric is falsy (zero),
and the whole factor is `0` when either side has no performance row. -/
def performance_similarity (reference_car : Car) : Car → ℚ :=
  match reference_car.performance with
  | none => fun _ => 0
  | some p => fun c =>
    match c.performance with
    | none => 0
    | some q =>
      ((if p.top_speed ≠ 0 then
          1 - |(q.top_speed : ℚ) - (p.top_speed : ℚ)| / (p.top_speed : ℚ)
        else 0)
       + (if p.acceleration_min ≠ 0 then
            1 - |q.acceleration_min - p.acceleration_min| / p.acceleration_min
          else 0)) / 2

/-- `get_brand_similarity_annotation` (car_recommendations.py:98). -/
def brand_similarity (reference_car : Car) : Car → ℚ := fun c =>
  if c.brand = reference_car.brand then 1 else 0

/-- The `matching_tags=Count("tag", filter=Q(tag__in=car.tag_set.all()))`
annotation of `get_similar_cars`: the number of the candidate's tag rows
lying in the reference car's tag set. -/
def matching_tags (reference_car : Car) : Car → ℕ := fun c =>
  (c.tags.filter (fun t => t ∈ reference_car.tags)).length

/-- `get_tag_similarity_annotation` (car_recommendations.py:115):
`matching_tags / tag_count`, the constant-0 annotation when the reference
has no tags. -/
def tag_similarity (reference_car : Car) : Car → ℚ :=
  let tag_count := reference_car.tags.length
  if tag_count = 0 then fun _ => 0
  else fun c =>
    if 0 < matching_tags reference_car c then
      (matching_tags reference_car c : ℚ) / (tag_count : ℚ)
    else 0

/-- The weights dictionary of `calculate_similarity_score`. -/
structure SimilarityWeights where
  price : ℚ
  performance : ℚ
  brand : ℚ
  tags : ℚ
deriving DecidableEq

/-- The default weights `{"price": 0.3, "performance": 0.3, "brand": 0.2,
"tags": 0.2}` (car_recommendations.py:152). -/
def defaultWeights : SimilarityWeights :=
  { price := 3/10, performance := 3/10, brand := 2/10, tags := 2/10 }

/-- `calculate_similarity_score` (car_recommendations.py:136): `weights=None`
selects the default weights. -/
def calculate_similarity_score
    (price_sim perf_sim brand_sim tag_sim : ℚ)
    (weights : Option SimilarityWeights) : ℚ :=
  let w := weights.getD defaultWeights
  price_sim * w.price + perf_sim * w.performance
    + brand_sim * w.brand + tag_sim * w.tags

/-- The `similarity_score` annotation of `get_similar_cars`
(car_recommendations.py:187). -/
def similarity_score (car : Car) (weights : Option SimilarityWeights) :
    Car → ℚ := fun c =>
  calculate_similarity_score (price_similarity car c)
    (performance_similarity car c) (brand_similarity car c)
    (tag_similarity car c) weights

/-- The ordering realising `order_by("-similarity_score")`:
`a` precedes `b` when `a`'s score is at least `b`'s. -/
def scoreGE (car : Car) (weights : Option SimilarityWeights)
    (a b : Car) : Prop :=
  similarity_score car weights b ≤ similarity_score car weights a

instance (car : Car) (w : Option SimilarityWeights) :
    DecidableRel (scoreGE car w) := fun _ _ =>
  inferInstanceAs (Decidable (_ ≤ _))

instance (car : Car) (w : Option SimilarityWeights) :
    IsTotal Car (scoreGE car w) :=
  ⟨fun _ _ => le_total _ _⟩

instance (car : Car) (w : Option SimilarityWeights) :
    IsTrans Car (scoreGE car w) :=
  ⟨fun _ _ _ h1 h2 => le_trans h2 h1⟩

/-- The annotated, score-ordered candidate list of `get_similar_cars`
before the `[:limit]` slice: `Car.objects.exclude(id=car.id)` over the
candidate pool, ordered by nonincreasing `similarity_score`. -/
def ranked_candidates (car : Car) (weights : Option SimilarityWeights)
    (pool : List Car) : List Car :=
  List.insertionSort (scoreGE car weights)
    (pool.filter (fun c => c.id != car.id))

/-- `get_similar_cars` (car_recommendations.py:162) over an explicit
candidate pool. -/
def get_similar_cars (car : Car) (pool : List Car) (limit : ℕ)
    (weights : Option SimilarityWeights) : List Car :=
  (ranked_candidates car weights pool).take limit

/-- `get_similar_cars` with its default arguments `limit=5, weights=None`. -/
def get_similar_cars_default (car : Car) (pool : List Car) : List Car :=
  get_similar_cars car pool 5 none

/-! ## Text-parsing embedding

The parsers operate on Python `str`; here on `List Char` (inputs are ASCII).
Each Python regex used by the source is small enough that its backtracking
search is deterministic: every quantifier in these patterns is greedy over a
character class that is disjoint from what may legally follow it, so taking
the maximal run is the only parse the continuation can accept.  The
functions below encode exactly that. -/

/-- Python's `\s` class (ASCII). -/
def isPySpace (c : Char) : Bool :=
  c == ' ' || c == '\t' || c == '\n' || c == '\r' || c == '\x0b' || c == '\x0c'

/-- Python's `\w` class (ASCII): the word characters used by `\b`. -/
def isWordChar (c : Char) : Bool := c.isAlphanum || c == '_'

/-- `int(...)` on a nonempty digit string. -/
def natOfDigits (ds : List Char) : ℕ :=
  ds.foldl (fun acc c => 10 * acc + (c.toNat - '0'.toNat)) 0

/-- Does `s` start with `needle`? -/
def startsWithLit : List Char → List Char → Bool
  | [], _ => true
  | _ :: _, [] => false
  | a :: as, b :: bs => a == b && startsWithLit as bs

/-- Python's `needle in s` substring test. -/
def containsSub : List Char → List Char → Bool
  | needle, [] => startsWithLit needle []
  | needle, c :: r => startsWithLit needle (c :: r) || containsSub needle r

/-- A `\b` immediately before a word character: satisfied at the start of
the string or after a non-word character. -/
def prevBoundary : Option Char → Bool
  | none => true
  | some c => !isWordChar c

/-- A `\b` immediately after a word character: satisfied at the end of the
string or before a non-word character. -/
def boundaryAfter : List Char → Bool
  | [] => true
  | c :: _ => !isWordChar c

/-- One separator match of `re.split(r"\s*/\s*|\s+OR\s+", ...)` starting at
the current position: returns the remainder after the separator.  The first
alternative is tried first, as Python does. -/
def matchSep (s : List Char) : Option (List Char) :=
  match s.dropWhile isPySpace with
  | '/' :: rest => some (rest.dropWhile isPySpace)
  | 'O' :: 'R' :: rest =>
    if (s.takeWhile isPySpace).isEmpty then none
    else if (rest.takeWhile isPySpace).isEmpty then none
    else some (rest.dropWhile isPySpace)
  | _ => none

/-- `re.split` body: scan left to right, cutting at each leftmost separator
match; fuel is the remaining string length (every match consumes at least
one character). -/
def splitSepsAux : ℕ → List Char → List Char → List (List Char)
  | _, [], acc => [acc.reverse]
  | 0, s, acc => [acc.reverse ++ s]
  | fuel + 1, c :: rest, acc =>
    match matchSep (c :: rest) with
    | some rem => acc.reverse :: splitSepsAux fuel rem []
    | none => splitSepsAux fuel rest (c :: acc)

/-- `re.split(r"\s*/\s*|\s+OR\s+", s)`. -/
def splitSeps (s : List Char) : List (List Char) :=
  splitSepsAux (s.length + 1) s []

/-- `ASPIRATION_MAPPING` (utils/data_cleaners.py:327): a literal ordered
table; iteration order is declaration order. -/
def ASPIRATION_MAPPING : List (List Char × Char) :=
  [("NATURALLY ASPIRATED".toList, 'N'),
   ("QUAD TURBO".toList, 'Q'),
   ("QUAD-TURBO".toList, 'Q'),
   ("TWIN TURBO".toList, 'W'),
   ("TWIN-TURBO".toList, 'W'),
   ("TURBO".toList, 'T'),
   ("SUPERCHARGED".toList, 'S')]

/-- `_extract_aspiration` (utils/data_cleaners.py:312): first synonym, in
table order, occurring as a substring wins. -/
def extract_aspiration (engine : List Char) : Option Char :=
  (ASPIRATION_MAPPING.find? (fun p => containsSub p.1 engine)).map (fun p => p.2)

/-- One match attempt of `(\d+)[-\s]?CYLINDER|\b[IVFWR](\d+)\b` at the
current position (`prev` is the preceding character, for `\b`); returns
`int(group(1) or group(2))`. -/
def matchCountAt (prev : Option Char) (s : List Char) : Option ℕ :=
  let ds := s.takeWhile Char.isDigit
  let rest := s.dropWhile Char.isDigit
  if !ds.isEmpty &&
      (startsWithLit "CYLINDER".toList rest ||
        (match rest with
         | c :: r => (c == '-' || isPySpace c) && startsWithLit "CYLINDER".toList r
         | [] => false)) then
    some (natOfDigits ds)
  else
    match s with
    | c :: r =>
      if prevBoundary prev && (c == 'I' || c == 'V' || c == 'F' || c == 'W' || c == 'R') then
        let ds2 := r.takeWhile Char.isDigit
        if !ds2.isEmpty && boundaryAfter (r.dropWhile Char.isDigit) then
          some (natOfDigits ds2)
        else none
      else none
    | [] => none

/-- `re.search` scan for the cylinder-count pattern: leftmost match wins. -/
def searchCount : Option Char → List Char → Option ℕ
  | prev, [] => matchCountAt prev []
  | prev, c :: r =>
    match matchCountAt prev (c :: r) with
    | some n => some n
    | none => searchCount (some c) r

/-- `_extract_cylinder_count` (utils/data_cleaners.py:260). -/
def extract_cylinder_count (engine : List Char) : Option ℕ :=
  searchCount none engine

/-- Match attempt, at the current position, of one layout entry's pattern
`\bLAYOUT(?:[-\s]\d+)?\b|\bABBREV(?:\d+)?\b` (utils/data_cleaners.py:304).
Both alternatives of the optional groups are tried, as backtracking does. -/
def matchLayoutAtU (prev : Option Char) (layout : List Char) (abbr : Char)
    (s : List Char) : Bool :=
  (prevBoundary prev && startsWithLit layout s &&
    (let rest := s.drop layout.length
     boundaryAfter rest ||
       (match rest with
        | c :: r =>
          (c == '-' || isPySpace c) &&
            !(r.takeWhile Char.isDigit).isEmpty &&
            boundaryAfter (r.dropWhile Char.isDigit)
        | [] => false)))
  ||
  (match s with
   | c :: r =>
     prevBoundary prev && c == abbr &&
       (boundaryAfter r ||
         (!(r.takeWhile Char.isDigit).isEmpty &&
           boundaryAfter (r.dropWhile Char.isDigit)))
   | [] => false)

/-- `re.search` scan for one layout entry's pattern. -/
def searchLayoutU (layout : List Char) (abbr : Char) :
    Option Char → List Char → Bool
  | prev, [] => matchLayoutAtU prev layout abbr []
  | prev, c :: r =>
    matchLayoutAtU prev layout abbr (c :: r) || searchLayoutU layout abbr (some c) r

/-- `CYLINDER_LAYOUT_MAPPING` (utils/data_cleaners.py:293): a literal
ordered table; iteration order is declaration order. -/
def CYLINDER_LAYOUT_MAPPING : List (List Char × Char) :=
  [("INLINE".toList, 'I'),
   ("STRAIGHT".toList, 'I'),
   ("V".toList, 'V'),
   ("FLAT".toList, 'F'),
   ("BOXER".toList, 'F'),
   ("W".toList, 'W'),
   ("ROTARY".toList, 'R'),
   ("WANKEL".toList, 'R')]

/-- `_extract_cylinder_layout` (utils/data_cleaners.py:278): first table
entry whose pattern matches wins. -/
def extract_cylinder_layout (engine : List Char) : Option Char :=
  (CYLINDER_LAYOUT_MAPPING.find? (fun p => searchLayoutU p.1 p.2 none engine)).map
    (fun p => p.2)

/-- `EngineConfig` (utils/data_cleaners.py:18). -/
structure EngineConfig where
  cylinder_layout : Option Char
  cylinder_count : Option ℕ
  aspiration : Option Char
deriving DecidableEq

/-- Python truthiness of the `Optional[int]` cylinder count:
`None` and `0` are falsy. -/
def truthyCount : Option ℕ → Bool
  | none => false
  | some n => n != 0

/-- `_parse_engine` (utils/data_cleaners.py:342): `None` on falsy input,
upper-case, split on `/` or `OR`, extract per alternative, keep the
alternatives with a truthy component, and `None` when nothing was kept. -/
def parse_engine (engine_str : String) : Option (List EngineConfig) :=
  if engine_str.toList.isEmpty then none
  else
    let engines := splitSeps (engine_str.toList.map Char.toUpper)
    let engine_configs := engines.filterMap (fun engine =>
      let cylinder_layout := extract_cylinder_layout engine
      let cylinder_count := extract_cylinder_count engine
      let aspiration := extract_aspiration engine
      if truthyCount cylinder_count || cylinder_layout.isSome || aspiration.isSome then
        some ⟨cylinder_layout, cylinder_count, aspiration⟩
      else none)
    if engine_configs.isEmpty then none else some engine_configs

/-- Match attempt of one layout entry's pattern in the older variant
`\bLAYOUT(?:\d+|-\d+)?\b|\bABBREV(?:\d+)?\b` (data_cleaners.py:240):
digits may follow directly or after a hyphen, but not after a space. -/
def matchLayoutAtOld (prev : Option Char) (layout : List Char) (abbr : Char)
    (s : List Char) : Bool :=
  (prevBoundary prev && startsWithLit layout s &&
    (let rest := s.drop layout.length
     boundaryAfter rest ||
       (!(rest.takeWhile Char.isDigit).isEmpty &&
         boundaryAfter (rest.dropWhile Char.isDigit)) ||
       (match rest with
        | '-' :: r =>
          !(r.takeWhile Char.isDigit).isEmpty &&
            boundaryAfter (r.dropWhile Char.isDigit)
        | _ => false)))
  ||
  (match s with
   | c :: r =>
     prevBoundary prev && c == abbr &&
       (boundaryAfter r ||
         (!(r.takeWhile Char.isDigit).isEmpty &&
           boundaryAfter (r.dropWhile Char.isDigit)))
   | [] => false)

/-- `re.search` scan for the older layout pattern. -/
def searchLayoutOld (layout : List Char) (abbr : Char) :
    Option Char → List Char → Bool
  | prev, [] => matchLayoutAtOld prev layout abbr []
  | prev, c :: r =>
    matchLayoutAtOld prev layout abbr (c :: r) ||
      searchLayoutOld layout abbr (some c) r

/-- The layout extraction loop of `parse_engine` (data_cleaners.py:239). -/
def extract_cylinder_layout_old (engine : List Char) : Option Char :=
  (CYLINDER_LAYOUT_MAPPING.find? (fun p => searchLayoutOld p.1 p.2 none engine)).map
    (fun p => p.2)

/-- `parse_engine` (data_cleaners.py:188), the older sibling of
`_parse_engine`: returns a plain list, `[]` (never `None`) on absent input
and when no alternative contributes. -/
def parse_engine_old (engine_str : String) :
    List (Option Char × Option ℕ × Option Char) :=
  if engine_str.toList.isEmpty then []
  else
    (splitSeps (engine_str.toList.map Char.toUpper)).filterMap (fun engine =>
      let cylinder_count := extract_cylinder_count engine
      let cylinder_layout := extract_cylinder_layout_old engine
      let aspiration := extract_aspiration engine
      if truthyCount cylinder_count || cylinder_layout.isSome || aspiration.isSome then
        some (cylinder_layout, cylinder_count, aspiration)
      else none)

/-- The greedy parse of `\d+(?:,\d{3})*` after its leading digit run:
consume `,ddd` groups as long as they are present, returning the extra
digits and the remainder.  (With fewer groups the continuation of either
capacity pattern would face a `,`, which it cannot accept, so the greedy
parse is the only viable one.) -/
def commaGroups : List Char → (List Char × List Char)
  | ',' :: d1 :: d2 :: d3 :: r =>
    if d1.isDigit && d2.isDigit && d3.isDigit then
      let (more, rest) := commaGroups r
      (d1 :: d2 :: d3 :: more, rest)
    else ([], ',' :: d1 :: d2 :: d3 :: r)
  | s => ([], s)

/-- Match `(\d+(?:,\d{3})*)` at the current position and convert it with
`int(... .replace(",", ""))`. -/
def numWithCommasAt (s : List Char) : Option (ℕ × List Char) :=
  let ds := s.takeWhile Char.isDigit
  if ds.isEmpty then none
  else
    let (more, rest) := commaGroups (s.dropWhile Char.isDigit)
    some (natOfDigits (ds ++ more), rest)

/-- Match the unit alternation `(cc|kwh)` (the string was lower-cased):
`true` for `cc`, `false` for `kwh`. -/
def unitAt (s : List Char) : Option (Bool × List Char) :=
  if startsWithLit "cc".toList s then some (true, s.drop 2)
  else if startsWithLit "kwh".toList s then some (false, s.drop 3)
  else none

/-- One match attempt of the range pattern
`(\d+(?:,\d{3})*)\s*-\s*(\d+(?:,\d{3})*)\s*(cc|kwh)` at the current
position. -/
def matchRangeAt (s : List Char) : Option (ℕ × ℕ × Bool × List Char) :=
  match numWithCommasAt s with
  | none => none
  | some (n1, r1) =>
    match r1.dropWhile isPySpace with
    | '-' :: r2 =>
      match numWithCommasAt (r2.dropWhile isPySpace) with
      | none => none
      | some (n2, r3) =>
        match unitAt (r3.dropWhile isPySpace) with
        | none => none
        | some (u, rest) => some (n1, n2, u, rest)
    | _ => none

/-- One match attempt of the single-value pattern
`(\d+(?:,\d{3})*)\s*(cc|kwh)` at the current position. -/
def matchSingleAt (s : List Char) : Option (ℕ × Bool × List Char) :=
  match numWithCommasAt s with
  | none => none
  | some (n, r) =>
    match unitAt (r.dropWhile isPySpace) with
    | none => none
    | some (u, rest) => some (n, u, rest)

/-- `re.finditer` over the range pattern: non-overlapping leftmost matches,
scanning left to right (fuel bounds the scan by the string length). -/
def finditerRange : ℕ → List Char → List (ℕ × ℕ × Bool)
  | 0, _ => []
  | _ + 1, [] => []
  | fuel + 1, c :: r =>
    match matchRangeAt (c :: r) with
    | some (n1, n2, u, rest) => (n1, n2, u) :: finditerRange fuel rest
    | none => finditerRange fuel r

/-- `re.finditer` over the single-value pattern. -/
def finditerSingle : ℕ → List Char → List (ℕ × Bool)
  | 0, _ => []
  | _ + 1, [] => []
  | fuel + 1, c :: r =>
    match matchSingleAt (c :: r) with
    | some (n, u, rest) => (n, u) :: finditerSingle fuel rest
    | none => finditerSingle fuel r

/-- `sorted(list(python_set))` on a collection of accumulated numbers:
the ascending list of the distinct values. -/
def pySortedSet (l : List ℕ) : List ℕ :=
  List.insertionSort (fun a b => a ≤ b) l.dedup

/-- `_clean_capacity` (utils/data_cleaners.py:214): lower-case, collect
range endpoints, then single values, into two sets keyed by unit, and
return the ascending lists, `None` for an empty set. -/
def clean_capacity (capacity_str : String) :
    Option (List ℕ) × Option (List ℕ) :=
  if capacity_str.toList.isEmpty then (none, none)
  else
    let normalized := capacity_str.toList.map Char.toLower
    let ranges := finditerRange (normalized.length + 1) normalized
    let singles := finditerSingle (normalized.length + 1) normalized
    let engine_capacities :=
      (ranges.foldl (fun acc m => if m.2.2 then acc ++ [m.1, m.2.1] else acc) [])
        ++ (singles.foldl (fun acc m => if m.2 then acc ++ [m.1] else acc) [])
    let battery_capacities :=
      (ranges.foldl (fun acc m => if m.2.2 then acc else acc ++ [m.1, m.2.1]) [])
        ++ (singles.foldl (fun acc m => if m.2 then acc else acc ++ [m.1]) [])
    (if engine_capacities.isEmpty then none else some (pySortedSet engine_capacities),
     if battery_capacities.isEmpty then none else some (pySortedSet battery_capacities))

/-! ## Persistence helpers (src/cars/utils/car_helpers.py) -/

/-- `_get_value_at_index` (car_helpers.py:89): `None` for a falsy list,
`lst[index]` when in range, and on `IndexError` the first element when
`index == 1`, the last element otherwise. -/
def get_value_at_index {α : Type} : Option (List α) → ℕ → Option α
  | none, _ => none
  | some [], _ => none
  | some (a :: l), index =>
    match (a :: l)[index]? with
    | some v => some v
    | none => if index = 1 then some a else some ((a :: l).getLast (List.cons_ne_nil a l))

/-- The claim's description of `_get_value_at_index`: clamp-to-last
indexing (out-of-range indices yield the final element). -/
def clamp_to_last_index {α : Type} : Option (List α) → ℕ → Option α
  | none, _ => none
  | some [], _ => none
  | some (a :: l), index =>
    if h : index < (a :: l).length then some ((a :: l).get ⟨index, h⟩)
    else some ((a :: l).getLast (List.cons_ne_nil a l))

/-- The `engine_data` dictionary built by `clean_car_data`
(utils/data_cleaners.py:56), in insertion order. -/
structure EngineData where
  configs : Option (List EngineConfig)
  engine_capacities : Option (List ℕ)
  battery_capacities : Option (List ℕ)
  horsepowers : Option (List ℕ)
  torques : Option (List ℕ)
deriving DecidableEq

/-- An `Engine` row created by `_create_engines` (the `car` foreign key is
the fixed car the helper was called with). -/
structure EngineRow where
  cylinder_layout : Option Char
  cylinder_count : Option ℕ
  aspiration : Option Char
  engine_capacity : Option ℕ
  battery_capacity : Option ℕ
  horsepower : Option ℕ
  torque : Option ℕ
deriving DecidableEq

/-- The lengths of the non-`None` members of `engine_data.values()`
(`valid_lists` in `_create_engines`, car_helpers.py:136). -/
def valid_list_lengths (d : EngineData) : List ℕ :=
  [d.configs.map List.length, d.engine_capacities.map List.length,
   d.battery_capacities.map List.length, d.horsepowers.map List.length,
   d.torques.map List.length].filterMap id

/-- `_create_engines` (car_helpers.py:127): one empty row when every list
is `None`; otherwise one row per index below the maximum list length, each
field looked up with `_get_value_at_index`. -/
def create_engines (d : EngineData) : List EngineRow :=
  if valid_list_lengths d = [] then
    [⟨none, none, none, none, none, none, none⟩]
  else
    (List.range ((valid_list_lengths d).foldl max 0)).map (fun i =>
      let config := get_value_at_index d.configs i
      { cylinder_layout := config.bind (fun cf => cf.cylinder_layout)
        cylinder_count := config.bind (fun cf => cf.cylinder_count)
        aspiration := config.bind (fun cf => cf.aspiration)
        engine_capacity := get_value_at_index d.engine_capacities i
        battery_capacity := get_value_at_index d.battery_capacities i
        horsepower := get_value_at_index d.horsepowers i
        torque := get_value_at_index d.torques i })

/-! ## Price formatting (src/cars/utils/price_formatter.py) -/

/-- Python truthiness of an optional integer: `None` and `0` are falsy. -/
def pyTruthy : Option ℤ → Bool
  | none => false
  | some n => n != 0

/-- Digit grouping over the reversed (least-significant-first) digit list:
a comma precedes every third digit. -/
def groupRev : List Char → ℕ → List Char
  | [], _ => []
  | c :: r, i =>
    if i % 3 = 0 ∧ i ≠ 0 then ',' :: c :: groupRev r (i + 1)
    else c :: groupRev r (i + 1)

/-- The digit grouping of Python's format spec `,`: digits in groups of
three from the right. -/
def groupDigits (ds : List Char) : List Char :=
  (groupRev ds.reverse 0).reverse

/-- Python `f"{n:,}"` for an integer. -/
def fmtCommaInt (n : ℤ) : String :=
  let ds := (Nat.toDigits 10 n.natAbs)
  let grouped := String.mk (groupDigits ds)
  if n < 0 then "-" ++ grouped else grouped

/-- `format_price_range` (price_formatter.py:3).  `Except` captures the
`TypeError` Python raises when an f-string formats `None` with `:,` (the
truthiness guard only rules out the case where both bounds are falsy). -/
def format_price_range (price_min price_max : Option ℤ) :
    Except Unit (Option String) :=
  if !(pyTruthy price_min || pyTruthy price_max) then Except.ok none
  else if price_min = price_max then
    match price_min with
    | none => Except.error ()
    | some n => Except.ok (some ("$" ++ fmtCommaInt n))
  else
    match price_min, price_max with
    | some a, some b =>
      Except.ok (some ("$" ++ fmtCommaInt a ++ "-$" ++ fmtCommaInt b))
    | _, _ => Except.error ()

/-! ## Shared lemmas -/

lemma length_filter_mono {α : Type} (l : List α) (p q : α → Bool)
    (h : ∀ a ∈ l, p a = true → q a = true) :
    (l.filter p).length ≤ (l.filter q).length := by
  induction l with
  | nil => simp
  | cons a t ih =>
    have ht : ∀ b ∈ t, p b = true → q b = true := fun b hb => h b (List.mem_cons_of_mem a hb)
    by_cases hp : p a = true
    · have hq := h a (List.mem_cons_self a t) hp
      simp [List.filter_cons, hp, hq]
      exact ih ht
    · simp only [List.filter_cons, Bool.not_eq_true] at hp ⊢
      rw [hp]
      by_cases hq : q a = true
      · simp [hq]
        exact le_trans (ih ht) (Nat.le_succ _)
      · simp only [Bool.not_eq_true] at hq
        rw [hq]
        simpa using ih ht

lemma foldl_max_le (l : List ℕ) (a : ℕ) :
    ∀ init, init ≤ a → (∀ x ∈ l, x ≤ a) → l.foldl max init ≤ a := by
  induction l with
  | nil => intro init h0 _; simpa using h0
  | cons b t ih =>
    intro init h0 h
    simp only [List.foldl_cons]
    exact ih _ (max_le h0 (h b (List.mem_cons_self b t)))
      (fun x hx => h x (List.mem_cons_of_mem b hx))

lemma init_le_foldl_max (l : List ℕ) : ∀ init, init ≤ l.foldl max init := by
  induction l with
  | nil => intro init; simp
  | cons b t ih =>
    intro init
    simp only [List.foldl_cons]
    exact le_trans (le_max_left init b) (ih _)

lemma mem_le_foldl_max (l : List ℕ) (x : ℕ) (hx : x ∈ l) :
    ∀ init, x ≤ l.foldl max init := by
  induction l with
  | nil => cases hx
  | cons b t ih =>
    intro init
    simp only [List.foldl_cons]
    rcases List.mem_cons.mp hx with h | h
    · subst h
      exact le_trans (le_max_right init x) (init_le_foldl_max t _)
    · exact ih h _

/-! ## Claims -/

/-- C10: `_get_value_at_index` is equivalent to clamp-to-last indexing for
indices `i ≥ 0`: `None` on a falsy list, `lst[i]` in range, and the last
element for every out-of-range index — the `index == 1` special branch can
only fire on a one-element list, where first and last coincide. -/
theorem C10_get_value_at_index_clamps (α : Type) (lst : Option (List α)) (i : ℕ) :
    get_value_at_index lst i = clamp_to_last_index lst i := by
  match lst with
  | none => rfl
  | some [] => rfl
  | some (a :: l) =>
    simp only [get_value_at_index, clamp_to_last_index]
    by_cases h : i < (a :: l).length
    · rw [List.getElem?_eq_getElem h, dif_pos h]
      simp [List.get_eq_getElem]
    · rw [List.getElem?_eq_none (le_of_not_lt h), dif_neg h]
      by_cases h1 : i = 1
      · subst h1
        have hl : l.length = 0 := by
          simp only [List.length_cons, not_lt] at h
          omega
        have : l = [] := List.eq_nil_of_length_eq_zero hl
        subst this
        simp [List.getLast]
      · simp [h1]

/-- C4: on absent (empty) input, `_parse_engine` — the variant used by the
`load_and_store` ingestion path — returns `None`, while the claim (and the
function's own `List[EngineConfig]` return annotation, and its sibling
`parse_engine` in `cars/data_cleaners.py`) require the empty list; the other
cleaners return their `None`/empty defaults without raising. -/
theorem C4_parse_engine_empty_input :
    parse_engine "" = none ∧ parse_engine_old "" = []
    ∧ clean_capacity "" = (none, none) :=
  ⟨rfl, rfl, rfl⟩

/-- Input for the C9 counterexample: one parsed `EngineSpec` but two
horsepower values. -/
def dC9 : EngineData :=
  ⟨some [⟨some 'V', some 8, none⟩], none, none, some [100, 200], none⟩

/-- C9 counterexample: `_create_engines` creates one row per index below
the maximum length over all parsed value lists, not one row per
`EngineSpec`: with one parsed config and two horsepower values it creates
two rows. -/
theorem C9_counterexample :
    dC9.configs = some [⟨some 'V', some 8, none⟩]
    ∧ (dC9.configs.getD []).length = 1
    ∧ (create_engines dC9).length = 2 := by
  refine ⟨rfl, rfl, ?_⟩
  decide

/-- C9 (amended): the number of engine rows `_create_engines` creates is
the maximum length of the non-`None` parsed value lists (one empty row when
all are `None`); it equals the number of parsed `EngineSpec`s exactly when
the configs list is present and at least as long as every other list. -/
theorem C9_create_engines_row_count (d : EngineData) :
    (create_engines d).length
      = (if valid_list_lengths d = [] then 1 else (valid_list_lengths d).foldl max 0)
    ∧ (∀ cfgs, d.configs = some cfgs →
        (∀ n ∈ valid_list_lengths d, n ≤ cfgs.length) →
        (create_engines d).length = cfgs.length) := by
  constructor
  · unfold create_engines
    by_cases h : valid_list_lengths d = []
    · simp [h]
    · simp [h]
  · intro cfgs hcfgs hle
    have hmem : cfgs.length ∈ valid_list_lengths d := by
      simp [valid_list_lengths, hcfgs]
    have hne : valid_list_lengths d ≠ [] := List.ne_nil_of_mem hmem
    unfold create_engines
    rw [if_neg hne]
    simp only [List.length_map, List.length_range]
    exact le_antisymm (foldl_max_le _ _ _ (Nat.zero_le _) hle)
      (mem_le_foldl_max _ _ hmem _)

/-- Input for the C9 witness: two configs, every other list shorter. -/
def dC9w : EngineData :=
  ⟨some [⟨some 'V', some 8, none⟩, ⟨some 'I', some 6, none⟩], some [5000], none, none, none⟩

/-- C9 witness: on `dC9w` the amended row-count law yields two rows. -/
theorem C9_create_engines_row_count_witness :
    (create_engines dC9w).length = 2 :=
  (C9_create_engines_row_count dC9w).2
    [⟨some 'V', some 8, none⟩, ⟨some 'I', some 6, none⟩] rfl (by decide)

/-- The C3 counterexample car: `price_min` present and equal to `0`. -/
def carC3 : Car := ⟨7, 0, some 0, some 10, none, []⟩

/-- C3 counterexample: a present price of `0` is treated as absent, not as
measured data — `calculate_average_price` returns `None` for
`(price_min, price_max) = (0, 10)` (the claim requires `5`), and
`format_price_range(0, 0)` returns `None` (the claim requires a formatted
string for present data). -/
theorem C3_counterexample :
    carC3.price_min = some 0 ∧ carC3.price_max = some 10
    ∧ calculate_average_price carC3 = none
    ∧ format_price_range (some 0) (some 0) = Except.ok none := by
  refine ⟨rfl, rfl, ?_, rfl⟩
  simp [calculate_average_price, carC3]

/-- C3 (amended): absence and zero are conflated by the truthiness checks
of these operations: the average price is computed exactly when both bounds
are present and nonzero (a present `0` bound yields `None`), and
`format_price_range` returns `None` exactly when each bound is absent or
zero. -/
theorem C3_zero_conflated_with_absent :
    (∀ (car : Car) (a b : ℤ), car.price_min = some a → car.price_max = some b →
      a ≠ 0 → b ≠ 0 → calculate_average_price car = some (((a : ℚ) + (b : ℚ)) / 2))
    ∧ (∀ car : Car, (car.price_min = none ∨ car.price_min = some 0 ∨
        car.price_max = none ∨ car.price_max = some 0) →
      calculate_average_price car = none)
    ∧ (∀ price_min price_max : Option ℤ,
        format_price_range price_min price_max = Except.ok none ↔
          pyTruthy price_min = false ∧ pyTruthy price_max = false) := by
  refine ⟨?_, ?_, ?_⟩
  · intro car a b ha hb ha0 hb0
    simp [calculate_average_price, ha, hb, ha0, hb0]
  · intro car h
    unfold calculate_average_price
    rcases hmin : car.price_min with _ | a
    · simp
    · rcases hmax : car.price_max with _ | b
      · simp
      · rw [hmin, hmax] at h
        have h0 : a = 0 ∨ b = 0 := by
          rcases h with h | h | h | h <;> simp_all
        rcases h0 with h0 | h0 <;> simp [h0]
  · intro pmin pmax
    unfold format_price_range
    rcases pmin with _ | a <;> rcases pmax with _ | b
    · simp [pyTruthy]
    · by_cases hb : b = 0
      · subst hb; simp [pyTruthy]
      · simp [pyTruthy, hb]
    · by_cases ha : a = 0
      · subst ha; simp [pyTruthy]
      · simp [pyTruthy, ha]
    · by_cases ha : a = 0 <;> by_cases hb : b = 0
      · subst ha; subst hb; simp [pyTruthy]
      · subst ha; simp [pyTruthy, hb, Ne.symm hb]
      · subst hb; simp [pyTruthy, ha]
      · by_cases hab : a = b
        · subst hab; simp [pyTruthy, ha]
        · simp [pyTruthy, ha, hb, hab]

/-- C3 witness: both bounds present and nonzero on a concrete car take the
measured-data path of `calculate_average_price`. -/
theorem C3_zero_conflated_with_absent_witness :
    calculate_average_price ⟨1, 0, some 100, some 200, none, []⟩
      = some (((100 : ℚ) + (200 : ℚ)) / 2) :=
  C3_zero_conflated_with_absent.1 ⟨1, 0, some 100, some 200, none, []⟩ 100 200
    rfl rfl (by norm_num) (by norm_num)

/-- Reference car for the C1 counterexample. -/
def refC1 : Car := ⟨0, 0, some 100, some 100, none, []⟩

/-- Candidate car for the C1 counterexample: average price three times the
reference's. -/
def candC1 : Car := ⟨1, 1, some 300, some 300, none, []⟩

/-- C1 counterexample: with full price data on both sides, the price
similarity `1 − |avg_c − avg_r| / avg_r` is `-1`, outside `[0, 1]`. -/
theorem C1_counterexample :
    refC1.price_min = some 100 ∧ refC1.price_max = some 100
    ∧ candC1.price_min = some 300 ∧ candC1.price_max = some 300
    ∧ price_similarity refC1 candC1 = -1 := by
  refine ⟨rfl, rfl, rfl, rfl, ?_⟩
  norm_num [price_similarity, calculate_average_price, refC1, candC1]

/-- C1 (amended): each factor equals `0` when its data is missing on either
side, and is at most `1` (price and performance under nonnegative stored
reference values, tags when the candidate's tag rows are distinct); the
brand and tag similarities lie in `[0, 1]`, but the price and performance
similarities have no lower bound `0`: they are negative whenever the
candidate deviates from the reference by more than the reference value
itself. -/
theorem C1_per_factor_bounds (ref c : Car) :
    (calculate_average_price ref = none → price_similarity ref c = 0)
    ∧ (c.price_min = none ∨ c.price_max = none → price_similarity ref c = 0)
    ∧ ((∀ a : ℤ, ref.price_min = some a → 0 ≤ a) →
       (∀ b : ℤ, ref.price_max = some b → 0 ≤ b) →
       price_similarity ref c ≤ 1)
    ∧ (ref.performance = none ∨ c.performance = none →
       performance_similarity ref c = 0)
    ∧ ((∀ p : Performance, ref.performance = some p →
          0 ≤ p.top_speed ∧ 0 ≤ p.acceleration_min) →
       performance_similarity ref c ≤ 1)
    ∧ (brand_similarity ref c = 0 ∨ brand_similarity ref c = 1)
    ∧ (ref.tags = [] → tag_similarity ref c = 0)
    ∧ (c.tags = [] → tag_similarity ref c = 0)
    ∧ 0 ≤ tag_similarity ref c
    ∧ (c.tags.Nodup → tag_similarity ref c ≤ 1) := by
  refine ⟨?_, ?_, ?_, ?_, ?_, ?_, ?_, ?_, ?_, ?_⟩
  · intro h
    simp [price_similarity, h]
  · intro h
    unfold price_similarity
    rcases havg : calculate_average_price ref with _ | v
    · rfl
    · by_cases hv : v = 0
      · simp [hv]
      · rcases h with h | h
        · simp [hv, h]
        · cases hcm : c.price_min <;> simp [hv, h, hcm]
  · intro hmin hmax
    unfold price_similarity
    rcases havg : calculate_average_price ref with _ | v
    · norm_num
    · by_cases hv : v = 0
      · simp [hv]
      · have hpos : 0 < v := by
          unfold calculate_average_price at havg
          rcases h1 : ref.price_min with _ | a
          · rw [h1] at havg; exact absurd havg (by simp)
          · rcases h2 : ref.price_max with _ | b
            · rw [h1, h2] at havg; exact absurd havg (by simp)
            · rw [h1, h2] at havg
              by_cases ha0 : a = 0
              · simp [ha0] at havg
              · by_cases hb0 : b = 0
                · simp [hb0] at havg
                · simp [ha0, hb0] at havg
                  have ha' : (0 : ℚ) ≤ (a : ℚ) := by exact_mod_cast hmin a h1
                  have hb' : (0 : ℚ) ≤ (b : ℚ) := by exact_mod_cast hmax b h2
                  have hge : (0 : ℚ) ≤ v := by linarith
                  exact lt_of_le_of_ne hge (Ne.symm hv)
        rcases hc1 : c.price_min with _ | pmin
        · simp [hv, hc1]
        · rcases hc2 : c.price_max with _ | pmax
          · simp [hv, hc1, hc2]
          · have hd : 0 ≤ |((pmin : ℚ) + (pmax : ℚ)) / 2 - v| / v :=
              div_nonneg (abs_nonneg _) (le_of_lt hpos)
            simp only [hv, hc1, hc2, ite_false, if_false]
            linarith
  · intro h
    rcases h with h | h
    · simp [performance_similarity, h]
    · unfold performance_similarity
      rcases href : ref.performance with _ | p
      · rfl
      · simp [h]
  · intro hp
    unfold performance_similarity
    rcases href : ref.performance with _ | p
    · simp
    · rcases hc : c.performance with _ | q
      · simp [hc]
      · obtain ⟨hts, hacc⟩ := hp p href
        have h1 : (if p.top_speed ≠ 0 then
            1 - |(q.top_speed : ℚ) - (p.top_speed : ℚ)| / (p.top_speed : ℚ)
          else 0) ≤ 1 := by
          split
          · rename_i ht
            have htq : (0 : ℚ) < (p.top_speed : ℚ) := by
              exact_mod_cast lt_of_le_of_ne hts (Ne.symm ht)
            have := div_nonneg (abs_nonneg ((q.top_speed : ℚ) - (p.top_speed : ℚ)))
              (le_of_lt htq)
            linarith
          · norm_num
        have h2 : (if p.acceleration_min ≠ 0 then
            1 - |q.acceleration_min - p.acceleration_min| / p.acceleration_min
          else 0) ≤ 1 := by
          split
          · rename_i ha
            have haq : (0 : ℚ) < p.acceleration_min :=
              lt_of_le_of_ne hacc (Ne.symm ha)
            have := div_nonneg (abs_nonneg (q.acceleration_min - p.acceleration_min))
              (le_of_lt haq)
            linarith
          · norm_num
        simp only [hc]
        linarith
  · by_cases h : c.brand = ref.brand
    · right; simp [brand_similarity, h]
    · left; simp [brand_similarity, h]
  · intro h
    simp [tag_similarity, h]
  · intro h
    unfold tag_similarity matching_tags
    by_cases hr : ref.tags = [] <;> simp [h, hr]
  · unfold tag_similarity
    by_cases h : ref.tags.length = 0
    · simp [h]
    · by_cases hm : 0 < matching_tags ref c
      · simp only [h, if_false, hm, if_true]
        positivity
      · simp [h, hm]
  · intro hnd
    unfold tag_similarity
    by_cases h : ref.tags.length = 0
    · simp [h]
    · by_cases hm : 0 < matching_tags ref c
      · simp only [h, if_false, hm, if_true]
        have hlen : (0 : ℚ) < (ref.tags.length : ℚ) := by
          exact_mod_cast Nat.pos_of_ne_zero h
        rw [div_le_one hlen]
        have key : matching_tags ref c ≤ ref.tags.length := by
          have hnd2 : (c.tags.filter (fun t => decide (t ∈ ref.tags))).Nodup :=
            hnd.filter _
          have hsub : (c.tags.filter (fun t => decide (t ∈ ref.tags))).toFinset
              ⊆ ref.tags.toFinset := by
            intro x hx
            rw [List.mem_toFinset] at hx ⊢
            exact of_decide_eq_true (List.mem_filter.mp hx).2
          calc matching_tags ref c
              = (c.tags.filter (fun t => decide (t ∈ ref.tags))).toFinset.card :=
                (List.toFinset_card_of_nodup hnd2).symm
            _ ≤ ref.tags.toFinset.card := Finset.card_le_card hsub
            _ ≤ ref.tags.length := List.toFinset_card_le _
        exact_mod_cast key
      · simp [h, hm]

/-- Reference car for the C1 witness. -/
def refW1 : Car := ⟨0, 3, some 100, some 200, some ⟨250, 3, 5⟩, [1, 2]⟩

/-- Candidate car for the C1 witness. -/
def candW1 : Car := ⟨1, 3, some 150, some 150, some ⟨240, 4, 6⟩, [1]⟩

/-- C1 witness: the amended bounds instantiated at a fully-populated pair. -/
theorem C1_per_factor_bounds_witness :
    price_similarity refW1 candW1 ≤ 1
    ∧ performance_similarity refW1 candW1 ≤ 1
    ∧ tag_similarity refW1 candW1 ≤ 1 := by
  obtain ⟨-, -, h3, -, h5, -, -, -, -, h10⟩ := C1_per_factor_bounds refW1 candW1
  refine ⟨h3 ?_ ?_, h5 ?_, h10 (by decide)⟩
  · intro a ha
    simp [refW1] at ha
    omega
  · intro b hb
    simp [refW1] at hb
    omega
  · intro p hp
    rw [show refW1.performance = some ⟨250, 3, 5⟩ from rfl] at hp
    cases Option.some.inj hp
    constructor <;> norm_num

/-- C2: `get_similar_cars` returns at most `limit` candidates, none with
the reference's id, in nonincreasing composite-score order, where the
composite score is the weighted sum of the four factor similarities with
defaults `0.3/0.3/0.2/0.2`; `limit = 0` and an empty pool give `[]`. -/
theorem C2_get_similar_cars_contract (car : Car) (pool : List Car)
    (limit : ℕ) (w : Option SimilarityWeights) :
    (get_similar_cars car pool limit w).length ≤ limit
    ∧ (∀ c ∈ get_similar_cars car pool limit w, c.id ≠ car.id)
    ∧ List.Sorted (scoreGE car w) (get_similar_cars car pool limit w)
    ∧ (∀ c, similarity_score car none c
        = (3/10 : ℚ) * price_similarity car c
          + (3/10 : ℚ) * performance_similarity car c
          + (2/10 : ℚ) * brand_similarity car c
          + (2/10 : ℚ) * tag_similarity car c)
    ∧ (∀ ww : SimilarityWeights, ∀ c, similarity_score car (some ww) c
        = ww.price * price_similarity car c
          + ww.performance * performance_similarity car c
          + ww.brand * brand_similarity car c
          + ww.tags * tag_similarity car c)
    ∧ (get_similar_cars_default car pool).length ≤ 5
    ∧ get_similar_cars car pool 0 w = []
    ∧ get_similar_cars car [] limit w = [] := by
  refine ⟨?_, ?_, ?_, ?_, ?_, ?_, ?_, ?_⟩
  · exact List.length_take_le _ _
  · intro c hc
    have h1 : c ∈ ranked_candidates car w pool := List.mem_of_mem_take hc
    have h2 : c ∈ pool.filter (fun x => x.id != car.id) :=
      (List.perm_insertionSort (scoreGE car w) _).subset h1
    have h3 := (List.mem_filter.mp h2).2
    simpa using h3
  · exact List.Pairwise.sublist (List.take_sublist _ _)
      (List.sorted_insertionSort (scoreGE car w) _)
  · intro c
    simp only [similarity_score, calculate_similarity_score, defaultWeights,
      Option.getD_none]
    ring
  · intro ww c
    simp only [similarity_score, calculate_similarity_score, Option.getD_some]
    ring
  · exact List.length_take_le _ _
  · simp [get_similar_cars]
  · simp [get_similar_cars, ranked_candidates]

/-- Reference car for the C2 witness. -/
def carW2 : Car := ⟨0, 0, none, none, none, []⟩

/-- Candidate car for the C2 witness. -/
def candW2 : Car := ⟨1, 0, none, none, none, []⟩

/-- C2 witness: on a singleton pool the returned candidate is exactly the
pool member, and its id differs from the reference's. -/
theorem C2_get_similar_cars_contract_witness :
    candW2 ∈ get_similar_cars carW2 [candW2] 5 none ∧ candW2.id ≠ carW2.id := by
  have hmem : candW2 ∈ get_similar_cars carW2 [candW2] 5 none := by decide
  exact ⟨hmem, (C2_get_similar_cars_contract carW2 [candW2] 5 none).2.1 candW2 hmem⟩

/-- C5: missing optional data degrades factors to `0` without excluding a
candidate: a candidate with no performance row scores `0` on performance
yet still appears among the ranked candidates; a reference with no tags, a
falsy average price, or zero performance denominators makes the whole
corresponding factor `0` for every candidate uniformly. -/
theorem C5_missing_data_degrades (ref c : Car) (w : Option SimilarityWeights)
    (pool : List Car) :
    (c.performance = none → performance_similarity ref c = 0)
    ∧ (c ∈ pool → c.id ≠ ref.id → c ∈ ranked_candidates ref w pool)
    ∧ (ref.tags = [] → ∀ d : Car, tag_similarity ref d = 0)
    ∧ (calculate_average_price ref = none → ∀ d : Car, price_similarity ref d = 0)
    ∧ (calculate_average_price ref = some 0 → ∀ d : Car, price_similarity ref d = 0)
    ∧ (∀ p : Performance, ref.performance = some p → p.top_speed = 0 →
        p.acceleration_min = 0 → ∀ d : Car, performance_similarity ref d = 0) := by
  refine ⟨?_, ?_, ?_, ?_, ?_, ?_⟩
  · intro h
    unfold performance_similarity
    rcases href : ref.performance with _ | p
    · rfl
    · simp [h]
  · intro hmem hne
    unfold ranked_candidates
    rw [(List.perm_insertionSort (scoreGE ref w) _).mem_iff, List.mem_filter]
    exact ⟨hmem, by simpa using hne⟩
  · intro h d
    simp [tag_similarity, h]
  · intro h d
    simp [price_similarity, h]
  · intro h d
    simp [price_similarity, h]
  · intro p hp hts hacc d
    unfold performance_similarity
    rcases href : ref.performance with _ | p2
    · rfl
    · rw [href] at hp
      cases Option.some.inj hp
      rcases hd : d.performance with _ | q
      · simp [hd]
      · simp [hd, hts, hacc]

/-- Reference car for the C5 witness: no tags, no price, no performance. -/
def refW5 : Car := ⟨0, 0, none, none, none, []⟩

/-- Candidate car for the C5 witness: no performance row. -/
def candW5 : Car := ⟨2, 1, none, none, none, []⟩

/-- C5 witness: a candidate without a performance row scores `0` on every
degraded factor and is still ranked. -/
theorem C5_missing_data_degrades_witness :
    performance_similarity refW5 candW5 = 0
    ∧ tag_similarity refW5 candW5 = 0
    ∧ price_similarity refW5 candW5 = 0
    ∧ candW5 ∈ ranked_candidates refW5 none [candW5] := by
  obtain ⟨h1, h2, h3, h4, -, -⟩ := C5_missing_data_degrades refW5 candW5 none [candW5]
  exact ⟨h1 rfl, h3 rfl candW5, h4 rfl candW5, h2 (by decide) (by decide)⟩

/-- C6: the aspiration table is consulted in declaration order, so a string
containing `TWIN TURBO` (and none of the earlier synonyms) yields `W`, never
`T`, even though `TURBO` is a substring of it; and the claim's example
parses to exactly the two stated configs, in order (`"or"` exercises the
case-insensitive `OR` split). -/
theorem C6_parse_engine_alternatives :
    (∀ e : List Char,
      containsSub "TWIN TURBO".toList e = true →
      containsSub "NATURALLY ASPIRATED".toList e = false →
      containsSub "QUAD TURBO".toList e = false →
      containsSub "QUAD-TURBO".toList e = false →
      extract_aspiration e = some 'W')
    ∧ parse_engine "V8 Twin-Turbo / I6 Naturally Aspirated"
        = some [⟨some 'V', some 8, some 'W'⟩, ⟨some 'I', some 6, some 'N'⟩]
    ∧ parse_engine "V8 or I6"
        = some [⟨some 'V', some 8, none⟩, ⟨some 'I', some 6, none⟩] := by
  refine ⟨?_, by decide, by decide⟩
  intro e h1 h2 h3 h4
  unfold extract_aspiration ASPIRATION_MAPPING
  rw [List.find?_cons_of_neg _ (by simpa using h2),
      List.find?_cons_of_neg _ (by simpa using h3),
      List.find?_cons_of_neg _ (by simpa using h4),
      List.find?_cons_of_pos _ (by simpa using h1)]
  rfl

/-- C6 witness: `V12 TWIN TURBO` contains `TWIN TURBO`, none of the earlier
synonyms, and extracts aspiration `W`. -/
theorem C6_parse_engine_alternatives_witness :
    containsSub "TWIN TURBO".toList "V12 TWIN TURBO".toList = true
    ∧ extract_aspiration "V12 TWIN TURBO".toList = some 'W' :=
  ⟨by decide, C6_parse_engine_alternatives.1 _ (by decide) (by decide)
    (by decide) (by decide)⟩

lemma pySortedSet_sorted_lt (l : List ℕ) :
    List.Sorted (fun a b => a < b) (pySortedSet l) := by
  have hs : List.Sorted (fun a b => a ≤ b) (pySortedSet l) :=
    List.sorted_insertionSort _ _
  have hnd : (pySortedSet l).Nodup :=
    ((List.perm_insertionSort _ _).nodup_iff).mpr (List.nodup_dedup l)
  exact hs.lt_of_le hnd

lemma pySortedSet_ne_nil (l : List ℕ) (h : l ≠ []) : pySortedSet l ≠ [] := by
  intro hc
  have hlen : l.dedup.length = (pySortedSet l).length :=
    ((List.perm_insertionSort (fun a b => a ≤ b) l.dedup).length_eq).symm
  rw [hc] at hlen
  exact h ((List.dedup_eq_nil l).mp (List.eq_nil_of_length_eq_zero hlen))

/-- C8: each component of `_clean_capacity` is `None` or a nonempty
strictly-ascending (deduplicated, sorted) list, and the claim's example
yields engine capacities `[1000, 2000]` and battery capacities `[75]`. -/
theorem C8_clean_capacity :
    (∀ (s : String) (l : List ℕ), (clean_capacity s).1 = some l →
      l ≠ [] ∧ List.Sorted (fun a b => a < b) l)
    ∧ (∀ (s : String) (l : List ℕ), (clean_capacity s).2 = some l →
      l ≠ [] ∧ List.Sorted (fun a b => a < b) l)
    ∧ clean_capacity "1,000-2,000cc, 75kWh" = (some [1000, 2000], some [75]) := by
  refine ⟨?_, ?_, by decide⟩
  · intro s l h
    unfold clean_capacity at h
    split at h
    · simp at h
    · dsimp only [] at h
      split at h
      · simp at h
      · rename_i hne
        injection h with h'
        subst h'
        refine ⟨pySortedSet_ne_nil _ ?_, pySortedSet_sorted_lt _⟩
        intro hX
        exact hne (by rw [hX]; rfl)
  · intro s l h
    unfold clean_capacity at h
    split at h
    · simp at h
    · dsimp only [] at h
      split at h
      · simp at h
      · rename_i hne
        injection h with h'
        subst h'
        refine ⟨pySortedSet_ne_nil _ ?_, pySortedSet_sorted_lt _⟩
        intro hX
        exact hne (by rw [hX]; rfl)

/-- C8 witness: the engine component of the example satisfies the
nonempty-sorted characterisation. -/
theorem C8_clean_capacity_witness :
    (clean_capacity "1,000-2,000cc, 75kWh").1 = some [1000, 2000]
    ∧ ([1000, 2000] ≠ ([] : List ℕ)
        ∧ List.Sorted (fun a b => a < b) [1000, 2000]) := by
  have h : (clean_capacity "1,000-2,000cc, 75kWh").1 = some [1000, 2000] := by
    decide
  exact ⟨h, C8_clean_capacity.1 _ _ h⟩

/-- One of the four similarity factors of the scorer. -/
inductive Factor
  | price
  | performance
  | brand
  | tags
deriving DecidableEq

/-- The per-factor similarity annotation selected by a `Factor`. -/
def factor_similarity : Factor → Car → Car → ℚ
  | Factor.price => price_similarity
  | Factor.performance => performance_similarity
  | Factor.brand => brand_similarity
  | Factor.tags => tag_similarity

/-- Increase one factor's weight by `d`, holding the other three fixed. -/
def bump_weight : Factor → ℚ → SimilarityWeights → SimilarityWeights
  | Factor.price, d, w => { w with price := w.price + d }
  | Factor.performance, d, w => { w with performance := w.performance + d }
  | Factor.brand, d, w => { w with brand := w.brand + d }
  | Factor.tags, d, w => { w with tags := w.tags + d }

/-- The rank of `c` in the descending-score ordering over `pool`: the
number of pool members scoring strictly higher. -/
def rank_among (car : Car) (w : Option SimilarityWeights) (pool : List Car)
    (c : Car) : ℕ :=
  (pool.filter (fun y =>
    decide (similarity_score car w c < similarity_score car w y))).length

lemma similarity_score_bump (car : Car) (f : Factor) (d : ℚ)
    (w : SimilarityWeights) (y : Car) :
    similarity_score car (some (bump_weight f d w)) y
      = similarity_score car (some w) y + d * factor_similarity f car y := by
  cases f <;>
    simp only [similarity_score, calculate_similarity_score, bump_weight,
      factor_similarity, Option.getD_some] <;> ring

/-- C7 (amended): increasing one factor's weight while holding the other
three fixed cannot decrease a candidate's rank among the candidates whose
similarity on that factor is at most the candidate's own.  (Relative to a
candidate with a strictly higher factor value the rank can drop, even when
the candidate is above the pool average on that factor — see the
counterexample.) -/
theorem C7_weight_increase_pairwise_rank (ref x : Car) (w : SimilarityWeights)
    (f : Factor) (d : ℚ) (hd : 0 ≤ d) (pool : List Car) :
    rank_among ref (some (bump_weight f d w))
      (pool.filter (fun y =>
        decide (factor_similarity f ref y ≤ factor_similarity f ref x))) x
    ≤ rank_among ref (some w)
      (pool.filter (fun y =>
        decide (factor_similarity f ref y ≤ factor_similarity f ref x))) x := by
  unfold rank_among
  apply length_filter_mono
  intro y hy hlt
  rw [decide_eq_true_eq] at hlt ⊢
  have hf : factor_similarity f ref y ≤ factor_similarity f ref x :=
    of_decide_eq_true (List.mem_filter.mp hy).2
  rw [similarity_score_bump, similarity_score_bump] at hlt
  have hmul : d * factor_similarity f ref y ≤ d * factor_similarity f ref x :=
    mul_le_mul_of_nonneg_left hf hd
  linarith

/-- Reference car for the C7 counterexample: five tags, no price, no
performance data. -/
def refC7 : Car := ⟨0, 0, none, none, none, [1, 2, 3, 4, 5]⟩

/-- C7 counterexample candidate: same brand as the reference, three of its
five tags — tag similarity `0.6`, above the pool average `8/15`. -/
def xC7 : Car := ⟨1, 0, none, none, none, [1, 2, 3]⟩

/-- C7 counterexample candidate: different brand, all five tags. -/
def yC7 : Car := ⟨2, 9, none, none, none, [1, 2, 3, 4, 5]⟩

/-- C7 counterexample candidate: different brand, no tags. -/
def zC7 : Car := ⟨3, 9, none, none, none, []⟩

/-- The C7 counterexample pool. -/
def poolC7 : List Car := [xC7, yC7, zC7]

/-- Baseline weights for the C7 counterexample (the defaults). -/
def wC7 : SimilarityWeights := defaultWeights

/-- The C7 counterexample weights: only the tags weight is increased. -/
def wC7' : SimilarityWeights := { defaultWeights with tags := 8/10 }

/-- C7 counterexample: `x`'s tag similarity exceeds the pool average, the
tags weight alone is increased, yet `x`'s rank in the descending-score
ordering drops from `0` to `1` (it is overtaken by `y`, whose tag
similarity is higher). -/
theorem C7_counterexample :
    wC7'.price = wC7.price ∧ wC7'.performance = wC7.performance
    ∧ wC7'.brand = wC7.brand ∧ wC7.tags < wC7'.tags
    ∧ tag_similarity refC7 xC7 * 3
        > tag_similarity refC7 xC7 + tag_similarity refC7 yC7
          + tag_similarity refC7 zC7
    ∧ rank_among refC7 (some wC7) poolC7 xC7 = 0
    ∧ rank_among refC7 (some wC7') poolC7 xC7 = 1 := by
  refine ⟨rfl, rfl, rfl, by norm_num [wC7, wC7', defaultWeights], ?_, ?_, ?_⟩ <;>
    norm_num [rank_among, poolC7, List.filter_cons, similarity_score,
      calculate_similarity_score, price_similarity, performance_similarity,
      brand_similarity, tag_similarity, matching_tags, calculate_average_price,
      refC7, xC7, yC7, zC7, wC7, wC7', defaultWeights]

/-- C7 witness: the amended pairwise-rank monotonicity applied to the
counterexample pool with the tags weight increased by `1/2`. -/
theorem C7_weight_increase_pairwise_rank_witness :
    rank_among refC7 (some (bump_weight Factor.tags (1/2) wC7))
      (poolC7.filter (fun y =>
        decide (factor_similarity Factor.tags refC7 y
          ≤ factor_similarity Factor.tags refC7 xC7))) xC7
    ≤ rank_among refC7 (some wC7)
      (poolC7.filter (fun y =>
        decide (factor_similarity Factor.tags refC7 y
          ≤ factor_similarity Factor.tags refC7 xC7))) xC7 :=
  C7_weight_increase_pairwise_rank refC7 xC7 wC7 Factor.tags (1/2)
    (by norm_num) poolC7
